import Mathlib

/-!
Shallow embedding of the data-analysis engine of the vizplay-studio
repository (the exported functions of the data-utilities module:
`detectColumnType`, `analyzeData`, `calculateCorrelation`, `findOutliers`,
`generateInsights`, `applyFilters`, `groupAndAggregate`,
`addComputedFields`), together with theorems settling the frozen claims
about that engine.

Modelling conventions:
* JavaScript numbers are modelled as exact rationals (ℚ); `NaN` results of
  `Number(...)` coercion are modelled by `Option ℚ` being `none`.  The
  non-finite tokens (`Infinity`) are likewise modelled as non-numeric.
* A JavaScript object row is a list of key/value bindings; `undefined`
  (missing key) is `Option Value` being `none`.
* `Math.sqrt` is modelled by `Real.sqrt`, so the correlation coefficient
  and the z-score test live in ℝ.
-/

namespace VizPlay

/-- Scalar values a row can hold: numbers, strings, booleans, `null`, the
infinite sentinels produced by `Math.min`/`Math.max` of an empty spread,
and numeric arrays (used by the `range` filter operator). -/
inductive Value where
  | num (q : ℚ)
  | str (s : String)
  | bool (b : Bool)
  | null
  | posInf
  | negInf
  | arr (qs : List ℚ)
deriving DecidableEq, Repr

/-- A data row: an ordered list of column-name/value bindings.  Lookup
takes the first binding, matching JavaScript object key semantics (where
keys are unique). -/
abbrev Row := List (String × Value)

/-- Lookup of a column in a row; `none` models `undefined`. -/
def lookupRow : Row → String → Option Value
  | [], _ => none
  | p :: rest, c => if p.1 = c then some p.2 else lookupRow rest c

/-- Property assignment `r[k] = v`: replaces the binding if the key is
present, otherwise appends a new binding. -/
def setKey (r : Row) (k : String) (v : Value) : Row :=
  if r.any (fun p => p.1 = k) then
    r.map (fun p => if p.1 = k then (k, v) else p)
  else r ++ [(k, v)]

/-- Strip leading and trailing whitespace from a character list. -/
def trimChars (cs : List Char) : List Char :=
  ((cs.dropWhile Char.isWhitespace).reverse.dropWhile Char.isWhitespace).reverse

/-- Numeric value of a list of decimal digit characters. -/
def digitsVal (cs : List Char) : ℕ :=
  cs.foldl (fun n c => 10 * n + (c.toNat - 48)) 0

/-- Model of the JavaScript `Number(string)` coercion on decimal literals:
whitespace-trimmed empty string coerces to `0`; an optional sign followed
by digits with at most one decimal point coerces to the denoted rational;
anything else (including `Infinity`, modelled as not finite) gives `none`,
standing for a not-a-number / non-finite result. -/
def parseNumQ (s : String) : Option ℚ :=
  let cs := trimChars s.data
  if cs = [] then some 0
  else
    let signBody : ℚ × List Char :=
      match cs with
      | '-' :: rest => (-1, rest)
      | '+' :: rest => (1, rest)
      | _ => (1, cs)
    let sign := signBody.1
    let body := signBody.2
    let intPart := body.takeWhile Char.isDigit
    let rest := body.drop intPart.length
    match rest with
    | [] => if intPart = [] then none else some (sign * (digitsVal intPart : ℚ))
    | '.' :: frac =>
        if frac.all Char.isDigit ∧ ¬(intPart = [] ∧ frac = []) then
          some (sign * ((digitsVal intPart : ℚ) +
            (digitsVal frac : ℚ) / (10 : ℚ) ^ frac.length))
        else none
    | _ => none

/-- Rendering of a rational as a string, modelling JavaScript number
formatting (exact for integers; non-integral rationals are rendered as
fractions, an approximation of decimal float formatting that no claim
depends on). -/
def ratToString (q : ℚ) : String :=
  if q.den = 1 then toString q.num else toString q.num ++ "/" ++ toString q.den

/-- Model of `String(v)` for a present value. -/
def jsToString : Value → String
  | .num q => ratToString q
  | .str s => s
  | .bool b => if b then "true" else "false"
  | .null => "null"
  | .posInf => "Infinity"
  | .negInf => "-Infinity"
  | .arr qs => String.intercalate "," (qs.map ratToString)

/-- Model of `String(v)` for a possibly-`undefined` value. -/
def stringifyOpt : Option Value → String
  | none => "undefined"
  | some v => jsToString v

/-- Model of `Number(v)` for a present value, returning `some q` exactly
when the coercion yields a finite number. -/
def jsToNumber : Value → Option ℚ
  | .num q => some q
  | .str s => parseNumQ s
  | .bool b => some (if b then 1 else 0)
  | .null => some 0
  | .posInf => none
  | .negInf => none
  | .arr [] => some 0
  | .arr [q] => some q
  | .arr _ => none

/-- Model of `Number(row[column])`: `undefined` coerces to not-a-number. -/
def numEntry (v : Option Value) : Option ℚ :=
  v.bind jsToNumber

/-- Inferred column classification. -/
inductive ColType where
  | numeric
  | categorical
  | date
deriving DecidableEq, Repr

/-- Test of the date regular expression of the source
(four digits, dash, two digits, dash, two digits, full match). -/
def matchesDatePattern (s : String) : Bool :=
  match s.data with
  | [y1, y2, y3, y4, d1, m1, m2, d2, a1, a2] =>
      y1.isDigit && y2.isDigit && y3.isDigit && y4.isDigit && d1 = '-' &&
      m1.isDigit && m2.isDigit && d2 = '-' && a1.isDigit && a2.isDigit
  | _ => false

/-- Entries the source filters out before type detection:
`v !== null && v !== undefined && v !== ''`. -/
def isBlankEntry (v : Option Value) : Bool :=
  match v with
  | none => true
  | some .null => true
  | some (.str s) => s = ""
  | _ => false

/-- Embedding of `detectColumnType`: classifies a list of column values,
checking the date pattern first, then finite numeric coercion, defaulting
to categorical. -/
def detectColumnType (values : List (Option Value)) : ColType :=
  let nonNullValues := values.filter (fun v => !(isBlankEntry v))
  if nonNullValues.length = 0 then .categorical
  else
    let isDate := nonNullValues.all (fun v => matchesDatePattern (stringifyOpt v))
    if isDate then .date
    else
      let isNumeric := nonNullValues.all (fun v => (numEntry v).isSome)
      if isNumeric then .numeric else .categorical

/-- Per-column metadata produced by the schema analyzer. -/
structure ColumnInfo where
  name : String
  type : ColType
  values : List (Option Value)
deriving DecidableEq, Repr

/-- Deduplication keeping the first occurrence of each element, modelling
the insertion-order iteration of a JavaScript `Set`. -/
def dedupFirst {α : Type} [DecidableEq α] (l : List α) : List α :=
  l.foldl (fun acc v => if v ∈ acc then acc else acc ++ [v]) []

/-- Embedding of `analyzeData`: column set from the keys of the first row
(empty dataset gives the empty column list); per column, the inferred
type and the distinct observed values truncated to 50 entries. -/
def analyzeData (data : List Row) : List ColumnInfo :=
  match data with
  | [] => []
  | firstRow :: _ =>
    (firstRow.map Prod.fst).map (fun column =>
      let values := data.map (fun row => lookupRow row column)
      { name := column
        type := detectColumnType values
        values := (dedupFirst values).take 50 })

/-- Valid numeric pairs for the correlation of two columns: per row, both
columns coerced with `Number`, keeping rows where neither side is
not-a-number. -/
def corrPairs (data : List Row) (col1 col2 : String) : List (ℚ × ℚ) :=
  data.filterMap (fun row =>
    match numEntry (lookupRow row col1), numEntry (lookupRow row col2) with
    | some x, some y => some (x, y)
    | _, _ => none)

/-- Numerator of the sum-based Pearson formula: `n·Σxy − Σx·Σy`. -/
def corrNum (pairs : List (ℚ × ℚ)) : ℚ :=
  (pairs.length : ℚ) * (pairs.map (fun p => p.1 * p.2)).sum -
    (pairs.map (fun p => p.1)).sum * (pairs.map (fun p => p.2)).sum

/-- Radicand of the denominator of the sum-based Pearson formula:
`(n·Σx² − (Σx)²) · (n·Σy² − (Σy)²)`. -/
def corrDenSq (pairs : List (ℚ × ℚ)) : ℚ :=
  ((pairs.length : ℚ) * (pairs.map (fun p => p.1 ^ 2)).sum -
      (pairs.map (fun p => p.1)).sum ^ 2) *
    ((pairs.length : ℚ) * (pairs.map (fun p => p.2 ^ 2)).sum -
      (pairs.map (fun p => p.2)).sum ^ 2)

/-- Embedding of `calculateCorrelation`: `0` when fewer than two valid
pairs remain or when the square-root denominator is zero, otherwise the
Pearson coefficient `numerator / sqrt(radicand)`. -/
noncomputable def calculateCorrelation (data : List Row) (col1 col2 : String) : ℝ :=
  let pairs := corrPairs data col1 col2
  if pairs.length < 2 then 0
  else
    let denominator := Real.sqrt (corrDenSq pairs)
    if denominator = 0 then 0 else (corrNum pairs : ℝ) / denominator

/-- Numeric values of a column, with not-a-number coercions dropped, as
used by the outlier scan. -/
def outlierValues (data : List Row) (column : String) : List ℚ :=
  data.filterMap (fun row => numEntry (lookupRow row column))

/-- Mean of a list of rationals (`0` for the empty list, which the
callers rule out beforehand). -/
def listMean (values : List ℚ) : ℚ :=
  values.sum / (values.length : ℚ)

/-- Population variance of a list of rationals, divisor `n`. -/
def listVariance (values : List ℚ) : ℚ :=
  ((values.map (fun v => (v - listMean values) ^ 2)).sum) / (values.length : ℚ)

/-- Embedding of `findOutliers`: empty result when no value coerces or the
standard deviation is zero; otherwise the rows whose column value has
absolute z-score `|(value − mean)/stdDev|` strictly above the threshold,
in original row order.  The standard deviation is `Real.sqrt` of the
population variance. -/
noncomputable def findOutliers (data : List Row) (column : String) (threshold : ℚ) :
    List Row :=
  let values := outlierValues data column
  if values.length = 0 then []
  else
    let mean := listMean values
    let stdDev := Real.sqrt (listVariance values)
    if stdDev = 0 then []
    else
      data.filter (fun row =>
        match numEntry (lookupRow row column) with
        | none => false
        | some value => decide (|((value : ℝ) - (mean : ℝ)) / stdDev| > (threshold : ℝ)))

/-- Computable companion of `findOutliers` with the square-root-free
outlier test `threshold²·variance < (value − mean)²`, equivalent to the
z-score test for a nonnegative threshold (the only way the source calls
it). -/
def findOutliersQ (data : List Row) (column : String) (threshold : ℚ) : List Row :=
  let values := outlierValues data column
  if values.length = 0 then []
  else
    let mean := listMean values
    let variance := listVariance values
    if variance = 0 then []
    else
      data.filter (fun row =>
        match numEntry (lookupRow row column) with
        | none => false
        | some value => decide (threshold ^ 2 * variance < (value - mean) ^ 2))

lemma listVariance_nonneg (values : List ℚ) : 0 ≤ listVariance values := by
  unfold listVariance
  apply div_nonneg
  · apply List.sum_nonneg
    intro x hx
    obtain ⟨v, _, rfl⟩ := List.mem_map.1 hx
    positivity
  · positivity

/-- The real z-score version and the rational squared version of the
outlier scan agree for nonnegative thresholds. -/
lemma findOutliers_eq_findOutliersQ (data : List Row) (column : String)
    (threshold : ℚ) (ht : 0 ≤ threshold) :
    findOutliers data column threshold = findOutliersQ data column threshold := by
  unfold findOutliers findOutliersQ
  set values := outlierValues data column with hvalues
  by_cases hlen : values.length = 0
  · simp [hlen]
  · simp only [hlen, if_false]
    have hvar := listVariance_nonneg values
    by_cases hvz : listVariance values = 0
    · have : Real.sqrt (listVariance values) = 0 := by
        rw [hvz]; push_cast; exact Real.sqrt_zero
      simp [this, hvz]
    · have hvpos : (0 : ℚ) < listVariance values := lt_of_le_of_ne hvar (Ne.symm hvz)
      have hvposR : (0 : ℝ) < (listVariance values : ℝ) := by exact_mod_cast hvpos
      have hsd : Real.sqrt (listVariance values) ≠ 0 := by
        rw [ne_eq, Real.sqrt_eq_zero (le_of_lt hvposR)]
        exact ne_of_gt hvposR
      simp only [hsd, if_false, hvz, if_false]
      congr 1
      funext row
      cases hnum : numEntry (lookupRow row column) with
      | none => simp
      | some value =>
        simp only [decide_eq_decide]
        have hsdpos : 0 < Real.sqrt (listVariance values) := Real.sqrt_pos.2 hvposR
        have htR : (0 : ℝ) ≤ (threshold : ℝ) := by exact_mod_cast ht
        have hs2 : Real.sqrt (listVariance values) ^ 2 = (listVariance values : ℝ) :=
          Real.sq_sqrt (le_of_lt hvposR)
        rw [abs_div, abs_of_pos hsdpos, gt_iff_lt, lt_div_iff₀ hsdpos]
        have key : (threshold : ℝ) * Real.sqrt (listVariance values) <
            |((value : ℝ) - (listMean values : ℝ))| ↔
            ((threshold : ℝ)) ^ 2 * (listVariance values : ℝ) <
            ((value : ℝ) - (listMean values : ℝ)) ^ 2 := by
          constructor
          · intro h
            have h1 := pow_lt_pow_left₀ h
              (mul_nonneg htR (Real.sqrt_nonneg _)) (two_ne_zero)
            rw [mul_pow, hs2, sq_abs] at h1
            exact h1
          · intro h
            by_contra hc
            push_neg at hc
            have h1 := pow_le_pow_left₀ (abs_nonneg _) hc 2
            rw [mul_pow, hs2, sq_abs] at h1
            linarith
        rw [key]
        constructor
        · intro h
          exact_mod_cast h
        · intro h
          exact_mod_cast h

/-- Kinds of generated insights. -/
inductive InsightType where
  | correlation
  | outlier
  | trend
  | categorical
deriving DecidableEq, Repr

/-- A generated insight.  The confidence is a real number because the
correlation pass stores the absolute Pearson coefficient. -/
structure Insight where
  title : String
  description : String
  confidence : ℝ
  type : InsightType

/-- Ordered pairs `(l[i], l[j])` with `i < j`, in the traversal order of
the nested correlation loops of the source. -/
def orderedPairs {α : Type} : List α → List (α × α)
  | [] => []
  | x :: xs => xs.map (fun y => (x, y)) ++ orderedPairs xs

/-- Rendering of a real to two decimals, modelling `toFixed(2)` (used only
inside description strings that no claim inspects). -/
noncomputable def toFixedTwo (r : ℝ) : String :=
  ratToString ((⌊r * 100⌋ : ℚ) / 100)

/-- Rendering of a rational percentage to one decimal, modelling
`toFixed(1)` (used only inside description strings). -/
def qToFixedOne (q : ℚ) : String :=
  ratToString (((⌊q * 10 + 1 / 2⌋ : ℤ) : ℚ) / 10)

/-- Correlation pass body: one optional CORRELATION insight per ordered
column pair, emitted when `|r| > 0.5`, with confidence `|r|`. -/
noncomputable def corrInsight (data : List Row) (col1 col2 : String) : Option Insight :=
  let correlation := calculateCorrelation data col1 col2
  if |correlation| > 1 / 2 then
    let signWord := if correlation > 0 then "positive" else "negative"
    let rendered := toFixedTwo correlation
    some { title := s!"Strong {signWord} correlation found"
           description := s!"{col1} and {col2} show a {signWord} correlation (r = {rendered})"
           confidence := |correlation|
           type := .correlation }
  else none

/-- Outlier pass body: one optional OUTLIER insight per numeric column,
emitted when the outlier count is nonzero and below 10% of the row count,
with fixed confidence `0.8`. -/
noncomputable def outlierInsight (data : List Row) (col : ColumnInfo) : Option Insight :=
  let outliers := findOutliers data col.name 3
  if 0 < outliers.length ∧ (outliers.length : ℚ) < (data.length : ℚ) * (1 / 10) then
    let colName := col.name
    let cnt := toString outliers.length
    some { title := s!"Outliers detected in {colName}"
           description := s!"Found {cnt} potential outliers in {colName} column"
           confidence := ((8 : ℚ) / 10 : ℝ)
           type := .outlier }
  else none

/-- Frequency counts keyed by `String(val)`, accumulated in insertion
order over the (already deduplicated) distinct-values list of a column,
exactly as the source builds its `counts` record. -/
def countsOf (values : List (Option Value)) : List (String × ℕ) :=
  values.foldl (fun acc v =>
    let key := stringifyOpt v
    if acc.any (fun p => p.1 = key) then
      acc.map (fun p => if p.1 = key then (p.1, p.2 + 1) else p)
    else acc ++ [(key, 1)]) []

/-- Maximum of the counts (zero when there are none). -/
def maxCountOf (counts : List (String × ℕ)) : ℕ :=
  (counts.map Prod.snd).foldl max 0

/-- Categorical pass body: for a categorical column whose distinct-value
list has length strictly between 1 and 20, the mode of the frequency
counts over that distinct list; an insight with fixed confidence `0.7` is
emitted when the mode count exceeds 40% of the row count. -/
noncomputable def categoricalInsight (rowCount : ℕ) (col : ColumnInfo) : Option Insight :=
  if 1 < col.values.length ∧ col.values.length < 20 then
    let counts := countsOf col.values
    let maxCount := maxCountOf counts
    match counts.find? (fun p => p.2 = maxCount) with
    | some entry =>
        if (maxCount : ℚ) > (rowCount : ℚ) * (4 / 10) then
          let colName := col.name
          let cat := entry.1
          let pct := qToFixedOne ((maxCount : ℚ) / (rowCount : ℚ) * 100)
          some { title := s!"Dominant category in {colName}"
                 description := s!"{cat} represents {pct}% of all {colName} values"
                 confidence := ((7 : ℚ) / 10 : ℝ)
                 type := .categorical }
        else none
    | none => none
  else none

/-- Embedding of `generateInsights`: correlation, outlier and categorical
passes concatenated in source order, sorted by descending confidence with
a stable merge sort (modelling the JavaScript comparator
`(a, b) => b.confidence - a.confidence`), and capped at 5 items. -/
noncomputable def generateInsights (data : List Row) : List Insight :=
  let columns := analyzeData data
  let numericColumns := columns.filter (fun col => decide (col.type = .numeric))
  let categoricalColumns := columns.filter (fun col => decide (col.type = .categorical))
  let correlationInsights := (orderedPairs numericColumns).filterMap
    (fun pr => corrInsight data pr.1.name pr.2.name)
  let outlierInsights := numericColumns.filterMap (fun col => outlierInsight data col)
  let categoricalInsights := categoricalColumns.filterMap
    (fun col => categoricalInsight data.length col)
  ((correlationInsights ++ outlierInsights ++ categoricalInsights).mergeSort
    (fun a b => decide (b.confidence ≤ a.confidence))).take 5

/-- Filter operators. -/
inductive FilterOp where
  | equals
  | contains
  | greater
  | less
  | range
deriving DecidableEq, Repr

/-- A filter rule (field `operator` of the source is called `op` here). -/
structure FilterRule where
  column : String
  op : FilterOp
  value : Value
  enabled : Bool
deriving DecidableEq, Repr

/-- Substring containment on character lists, modelling
`String.prototype.includes` (the empty pattern is contained in every
string). -/
def charsContain (pat : List Char) : List Char → Bool
  | [] => pat.isEmpty
  | c :: rest => (((c :: rest).take pat.length) == pat) || charsContain pat rest

/-- Predicate of a single filter rule on a row: a disabled rule passes
every row; otherwise the rule operator is applied to `row[filter.column]`
with the coercions of the source. -/
def rulePasses (filter : FilterRule) (row : Row) : Bool :=
  if !filter.enabled then true
  else
    let value := lookupRow row filter.column
    match filter.op with
    | .equals =>
        match value with
        | some v => v == filter.value
        | none => false
    | .contains =>
        charsContain (jsToString filter.value).toLower.data (stringifyOpt value).toLower.data
    | .greater =>
        match numEntry value, jsToNumber filter.value with
        | some a, some b => decide (a > b)
        | _, _ => false
    | .less =>
        match numEntry value, jsToNumber filter.value with
        | some a, some b => decide (a < b)
        | _, _ => false
    | .range =>
        match filter.value with
        | .arr (lo :: hi :: _) =>
            match numEntry value with
            | some v => decide (lo ≤ v) && decide (v ≤ hi)
            | none => false
        | _ => false

/-- Embedding of `applyFilters`: keep the rows on which every rule
passes. -/
def applyFilters (data : List Row) (filters : List FilterRule) : List Row :=
  data.filter (fun row => filters.all (fun filter => rulePasses filter row))

/-- Aggregation functions. -/
inductive AggFun where
  | sum
  | avg
  | count
  | min
  | max
deriving DecidableEq, Repr

/-- An aggregation request (field `function` of the source is called `fn`
here). -/
structure Aggregation where
  column : String
  fn : AggFun
deriving DecidableEq, Repr

/-- Name of the derived output column of an aggregation. -/
def aggName (agg : Aggregation) : String :=
  agg.column ++ (match agg.fn with
    | .sum => "_sum"
    | .avg => "_avg"
    | .count => "_count"
    | .min => "_min"
    | .max => "_max")

/-- Aggregated value over the numeric-coercible entries of a column within
a group.  `Math.min`/`Math.max` of an empty spread give the infinite
sentinels. -/
def aggValue (agg : Aggregation) (groupData : List Row) : Value :=
  let values := groupData.filterMap (fun row => numEntry (lookupRow row agg.column))
  match agg.fn with
  | .sum => .num values.sum
  | .avg => .num (if 0 < values.length then values.sum / (values.length : ℚ) else 0)
  | .count => .num (values.length : ℚ)
  | .min =>
      match values with
      | [] => .posInf
      | v :: rest => .num (rest.foldl Min.min v)
  | .max =>
      match values with
      | [] => .negInf
      | v :: rest => .num (rest.foldl Max.max v)

/-- Piece a value contributes to a joined group key: `Array.join` renders
`null` and `undefined` as the empty string and stringifies the rest. -/
def joinPiece (v : Option Value) : String :=
  match v with
  | none => ""
  | some .null => ""
  | some v => jsToString v

/-- Group key of a row: the group-column values joined with a pipe. -/
def groupKey (groupColumns : List String) (row : Row) : String :=
  String.intercalate "|" (groupColumns.map (fun col => joinPiece (lookupRow row col)))

/-- One step of the grouping loop: append the row to the bucket of its
key if present, otherwise open a new bucket at the end. -/
def insertGroup (groupColumns : List String) (groups : List (String × List Row))
    (row : Row) : List (String × List Row) :=
  let key := groupKey groupColumns row
  if groups.any (fun e => e.1 = key) then
    groups.map (fun e => if e.1 = key then (e.1, e.2 ++ [row]) else e)
  else groups ++ [(key, [row])]

/-- Insertion-ordered grouping map, modelling the `Map` of the source:
rows are appended to the bucket of their key, new keys at the end. -/
def buildGroups (data : List Row) (groupColumns : List String) :
    List (String × List Row) :=
  data.foldl (insertGroup groupColumns) []

/-- Split of a character list at every pipe character. -/
def splitChars : List Char → List (List Char)
  | [] => [[]]
  | c :: rest =>
    if c = '|' then [] :: splitChars rest
    else
      match splitChars rest with
      | [] => [[c]]
      | h :: t => (c :: h) :: t

/-- Model of `key.split('|')` (written structurally so that concrete
evaluations reduce). -/
def splitOnPipe (s : String) : List String :=
  (splitChars s.data).map String.mk

/-- Assignment of the group columns of an output row: column `i` receives
piece `i` of the split key, as a string value. -/
def setGroupCols (r : Row) : List String → List String → Row
  | [], _ => r
  | c :: cs, [] => setGroupCols (setKey r c (.str "")) cs []
  | c :: cs, p :: ps => setGroupCols (setKey r c (.str p)) cs ps

/-- Embedding of `groupAndAggregate`: one output row per distinct joined
group key, holding the split key pieces under the group-column names and
one derived value per aggregation. -/
def groupAndAggregate (data : List Row) (groupColumns : List String)
    (aggregations : List Aggregation) : List Row :=
  (buildGroups data groupColumns).map (fun entry =>
    let pieces := splitOnPipe entry.1
    let withCols := setGroupCols [] groupColumns pieces
    aggregations.foldl (fun r agg => setKey r (aggName agg) (aggValue agg entry.2)) withCols)

/-- A computed-field request. -/
structure ComputedField where
  name : String
  expression : String
  type : ColType
deriving DecidableEq, Repr

/-- Characters the `\w` class of the substitution regex matches. -/
def isWordChar (c : Char) : Bool :=
  c.isAlphanum || c = '_'

/-- Replacement of one identifier-like token: the stringified row value
when the row has that column, else the token itself. -/
def replaceToken (row : Row) (tok : String) : String :=
  match lookupRow row tok with
  | some v => jsToString v
  | none => tok

/-- Substitution engine: walks the character list, accumulating the
current word-character run (reversed) and flushing it through
`replaceToken` at word boundaries, modelling
`expression.replace(/\b(\w+)\b/g, ...)`. -/
def substChars (row : Row) : List Char → List Char → List Char
  | curWord, [] =>
      if curWord.isEmpty then []
      else (replaceToken row (String.mk curWord.reverse)).data
  | curWord, c :: rest =>
      if isWordChar c then substChars row (c :: curWord) rest
      else
        (if curWord.isEmpty then []
         else (replaceToken row (String.mk curWord.reverse)).data) ++
          c :: substChars row [] rest

/-- Substituted expression of a computed field on a row (reads the
original row, not the partially extended one). -/
def substExpr (expression : String) (row : Row) : String :=
  String.mk (substChars row [] expression.data)

/-- Value of one computed field on one row, given an evaluation oracle for
the substituted expression string: an evaluation failure (`none`, the
image of a thrown error) is caught and becomes `null` for exactly that
field. -/
def computedValue (ev : String → Option Value) (field : ComputedField) (row : Row) :
    Value :=
  match ev (substExpr field.expression row) with
  | some v => v
  | none => .null

/-- Extension of a single row by all computed fields, in order. -/
def applyFieldsRow (ev : String → Option Value) (fields : List ComputedField)
    (row : Row) : Row :=
  fields.foldl (fun newRow field => setKey newRow field.name (computedValue ev field row)) row

/-- Embedding of `addComputedFields`, parameterised by the expression
evaluator `ev` (the source delegates to the JavaScript `eval`, which is
host-engine behaviour, so the evaluator is an oracle here; `none` models a
thrown evaluation error). -/
def addComputedFields (ev : String → Option Value) (data : List Row)
    (computedFields : List ComputedField) : List Row :=
  data.map (fun row => applyFieldsRow ev computedFields row)

/-- Type-inference contract written from the spec wording (section 4.1):
drop null, undefined and empty-string entries; empty remainder gives
CATEGORICAL; if every remaining value stringified matches `YYYY-MM-DD`
exactly, DATE; else if every remaining value coerces to a finite number,
NUMERIC; else CATEGORICAL — with the DATE check strictly preceding the
NUMERIC check. -/
def inferTypeSpec (values : List (Option Value)) : ColType :=
  let remaining := values.filter (fun v => !(isBlankEntry v))
  if remaining = [] then .categorical
  else if remaining.all (fun v => matchesDatePattern (stringifyOpt v)) then .date
  else if remaining.all (fun v => (numEntry v).isSome) then .numeric
  else .categorical

/-- C5: for every value sequence, `detectColumnType` drops blank entries,
returns CATEGORICAL on an empty remainder, otherwise DATE when all
remaining stringified values match `YYYY-MM-DD`, otherwise NUMERIC when
all remaining values coerce to finite numbers, otherwise CATEGORICAL; the
DATE check strictly precedes the NUMERIC check. -/
theorem detectColumnType_matches_spec (values : List (Option Value)) :
    detectColumnType values = inferTypeSpec values := by
  by_cases h : values.filter (fun v => !(isBlankEntry v)) = []
  · simp [detectColumnType, inferTypeSpec, h]
  · have h' : ¬(values.filter (fun v => !(isBlankEntry v))).length = 0 := by
      simpa [List.length_eq_zero] using h
    simp [detectColumnType, inferTypeSpec, h, h']

/-- C3 counterexample: on the empty dataset the schema analyzer silently
returns the empty column sequence — it does not signal an error. -/
theorem analyzeData_empty_counterexample : analyzeData [] = [] := rfl

/-- C3 amended: an empty dataset yields the empty column sequence from
`analyzeData` and the empty insight list from `generateInsights`, with no
error signalled to the caller. -/
theorem empty_dataset_silent_empty_results :
    analyzeData ([] : List Row) = [] ∧ generateInsights [] = [] := by
  refine ⟨rfl, ?_⟩
  simp [generateInsights, analyzeData, orderedPairs]

/-- C8: filtering with no rules is the identity, and inserting a disabled
rule anywhere in a rule list leaves the filtered dataset unchanged (in
particular it never excludes a row that would otherwise pass). -/
theorem applyFilters_identity_and_disabled_vacuous :
    (∀ data : List Row, applyFilters data [] = data) ∧
    (∀ (data : List Row) (l₁ l₂ : List FilterRule) (rule : FilterRule),
      rule.enabled = false →
      applyFilters data (l₁ ++ rule :: l₂) = applyFilters data (l₁ ++ l₂)) := by
  constructor
  · intro data
    simp [applyFilters]
  · intro data l₁ l₂ rule hrule
    unfold applyFilters
    congr 1
    funext row
    simp [List.all_append, List.all_cons, rulePasses, hrule]

/-- C8 witness: at a concrete dataset, filtering with no rules returns
the dataset and adding a concrete disabled rule changes nothing. -/
theorem applyFilters_identity_and_disabled_vacuous_witness :
    applyFilters [[("x", Value.num 2)]] [] = [[("x", Value.num 2)]] ∧
    applyFilters [[("x", Value.num 2)]]
        ([] ++ ⟨"x", FilterOp.equals, Value.num 1, false⟩ :: []) =
      applyFilters [[("x", Value.num 2)]] ([] ++ []) :=
  ⟨applyFilters_identity_and_disabled_vacuous.1 _,
    applyFilters_identity_and_disabled_vacuous.2 _ [] [] _ rfl⟩

/-- Five-row dataset of the outlier scenario: column `v` holds
`[10, 10, 10, 10, 1000]`. -/
def outlierScenarioData : List Row :=
  [[("v", Value.num 10)], [("v", Value.num 10)], [("v", Value.num 10)],
   [("v", Value.num 10)], [("v", Value.num 1000)]]

/-- C2 counterexample: with threshold 3 the scan does NOT return the row
with `v = 1000` — the population z-score of 1000 here is exactly 2
(mean 208, standard deviation 396), which is not above 3. -/
lemma outlierScenario_values : outlierValues outlierScenarioData "v" = [10, 10, 10, 10, 1000] :=
  rfl

lemma outlierScenario_mean : listMean [10, 10, 10, 10, 1000] = 208 := by
  norm_num [listMean]

lemma outlierScenario_variance : listVariance [10, 10, 10, 10, 1000] = 156816 := by
  norm_num [listVariance, listMean]

lemma outlierScenarioQ_three : findOutliersQ outlierScenarioData "v" 3 = [] := by
  unfold findOutliersQ
  simp only [outlierScenario_values, outlierScenario_mean, outlierScenario_variance]
  norm_num [outlierScenarioData, List.filter, numEntry, jsToNumber, lookupRow]

theorem findOutliers_scenario_counterexample :
    findOutliers outlierScenarioData "v" 3 ≠ [[("v", Value.num 1000)]] := by
  rw [findOutliers_eq_findOutliersQ _ _ _ (by norm_num), outlierScenarioQ_three]
  simp

/-- C2 amended: with threshold 3 the scan returns no rows (the z-score of
1000 is exactly 2, that of each 10 is 0.5); with any threshold in the
interval `[0.5, 2)` — for instance 1.5 — it returns exactly the row with
`v = 1000`. -/
theorem findOutliers_scenario_amended (t : ℚ) (h1 : 1 / 2 ≤ t) (h2 : t < 2) :
    findOutliers outlierScenarioData "v" 3 = [] ∧
    findOutliers outlierScenarioData "v" t = [[("v", Value.num 1000)]] := by
  constructor
  · rw [findOutliers_eq_findOutliersQ _ _ _ (by norm_num), outlierScenarioQ_three]
  · rw [findOutliers_eq_findOutliersQ _ _ _ (le_trans (by norm_num) h1)]
    unfold findOutliersQ
    simp only [outlierScenario_values, outlierScenario_mean, outlierScenario_variance]
    rw [if_neg (by norm_num), if_neg (by norm_num)]
    have h10 : ¬(t ^ 2 * 156816 < ((10 : ℚ) - 208) ^ 2) := by nlinarith
    have h1000 : t ^ 2 * 156816 < ((1000 : ℚ) - 208) ^ 2 := by nlinarith
    unfold outlierScenarioData
    simp [List.filter, numEntry, jsToNumber, lookupRow, h10, h1000]

/-- C2 witness: the amended statement instantiated at the concrete
threshold `1.5`, which lies in `[0.5, 2)`. -/
theorem findOutliers_scenario_amended_witness :
    ((1 : ℚ) / 2 ≤ 3 / 2 ∧ (3 : ℚ) / 2 < 2) ∧
    findOutliers outlierScenarioData "v" 3 = [] ∧
    findOutliers outlierScenarioData "v" (3 / 2) = [[("v", Value.num 1000)]] :=
  ⟨⟨by norm_num, by norm_num⟩,
    findOutliers_scenario_amended (3 / 2) (by norm_num) (by norm_num)⟩

/-- Ten-row dataset with a single categorical column `c`: the value `X`
in five rows and five other distinct values — the dominant-category
scenario of the spec (50% share, 6 distinct values). -/
def categoricalScenarioData : List Row :=
  [[("c", Value.str "X")], [("c", Value.str "X")], [("c", Value.str "X")],
   [("c", Value.str "X")], [("c", Value.str "X")], [("c", Value.str "A")],
   [("c", Value.str "B")], [("c", Value.str "C")], [("c", Value.str "D")],
   [("c", Value.str "E")]]

/-- Schema of the scenario dataset: one categorical column with six
distinct values. -/
def categoricalScenarioColumn : ColumnInfo :=
  { name := "c"
    type := .categorical
    values := [some (Value.str "X"), some (Value.str "A"), some (Value.str "B"),
               some (Value.str "C"), some (Value.str "D"), some (Value.str "E")] }

lemma analyzeData_categoricalScenario :
    analyzeData categoricalScenarioData = [categoricalScenarioColumn] := rfl

lemma categoricalInsight_scenario :
    categoricalInsight 10 categoricalScenarioColumn = none := by
  unfold categoricalInsight
  dsimp only
  rw [if_pos (by constructor <;> decide)]
  have hfind : (countsOf categoricalScenarioColumn.values).find?
      (fun p => p.2 = maxCountOf (countsOf categoricalScenarioColumn.values)) =
      some ("X", 1) := rfl
  rw [hfind]
  dsimp only
  rw [show maxCountOf (countsOf categoricalScenarioColumn.values) = 1 from rfl]
  rw [if_neg (by norm_num)]

/-- C1 failing-input evaluation: on the ten-row dominant-category
scenario the engine produces NO insights at all — the categorical pass
counts frequencies over the deduplicated distinct-values list, so every
count is 1 and the 40% mode test `1 > 4` fails; the claimed CATEGORICAL
insight naming `X` with confidence 0.7 is never emitted. -/
theorem generateInsights_dominant_category_bug :
    generateInsights categoricalScenarioData = [] ∧
    categoricalScenarioData.length = 10 ∧
    (categoricalScenarioData.filter
      (fun row => lookupRow row "c" == some (Value.str "X"))).length = 5 ∧
    1 < categoricalScenarioColumn.values.length ∧
    categoricalScenarioColumn.values.length < 20 := by
  refine ⟨?_, rfl, rfl, by decide, by decide⟩
  unfold generateInsights
  rw [analyzeData_categoricalScenario]
  dsimp only
  rw [show categoricalScenarioData.length = 10 from rfl]
  rw [show ([categoricalScenarioColumn].filter
    (fun col => decide (col.type = ColType.numeric))) = [] from rfl]
  rw [show ([categoricalScenarioColumn].filter
    (fun col => decide (col.type = ColType.categorical))) = [categoricalScenarioColumn] from rfl]
  simp [orderedPairs, categoricalInsight_scenario]

/-- C7: for every dataset the insight list has at most 5 entries and is
sorted by non-increasing confidence (every adjacent pair satisfies
`confidence[i] ≥ confidence[i+1]`). -/
theorem generateInsights_cap_and_sorted (data : List Row) :
    (generateInsights data).length ≤ 5 ∧
    (generateInsights data).Chain' (fun a b => b.confidence ≤ a.confidence) := by
  unfold generateInsights
  dsimp only
  constructor
  · rw [List.length_take]
    exact min_le_left _ _
  · apply List.Pairwise.chain'
    apply List.Pairwise.sublist (List.take_sublist _ _)
    exact (List.sorted_mergeSort
      (fun a b c hab hbc => by
        simp only [decide_eq_true_eq] at hab hbc ⊢
        exact le_trans hbc hab)
      (fun a b => by
        simp only [Bool.or_eq_true, decide_eq_true_eq]
        exact le_total _ _) _).imp
      (fun hab => of_decide_eq_true hab)

lemma list_map_sum_eq_fin (pairs : List (ℚ × ℚ)) (f : ℚ × ℚ → ℚ) :
    (pairs.map f).sum = ∑ i : Fin pairs.length, f (pairs.get i) := by
  conv_lhs => rw [← List.ofFn_get pairs]
  rw [List.map_ofFn, List.sum_ofFn]
  rfl

lemma double_sum_mul (n : ℕ) (x y : Fin n → ℚ) :
    ∑ p : Fin n × Fin n, (x p.1 - x p.2) * (y p.1 - y p.2) =
      2 * ((n : ℚ) * (∑ i, x i * y i) - (∑ i, x i) * (∑ i, y i)) := by
  rw [Fintype.sum_prod_type]
  have expand : ∀ i j : Fin n, (x i - x j) * (y i - y j) =
      x i * y i - x i * y j - x j * y i + x j * y j := by
    intro i j
    ring
  simp only [expand]
  simp only [Finset.sum_add_distrib, Finset.sum_sub_distrib, ← Finset.mul_sum,
    ← Finset.sum_mul, Finset.sum_const, Finset.card_univ, Fintype.card_fin,
    nsmul_eq_mul]
  have hmid : ∑ i : Fin n, x i * ((n : ℚ) * y i) = (n : ℚ) * ∑ i : Fin n, x i * y i := by
    rw [Finset.mul_sum]
    exact Finset.sum_congr rfl (fun i _ => by ring)
  rw [hmid]
  ring

lemma double_sum_sq (n : ℕ) (x : Fin n → ℚ) :
    ∑ p : Fin n × Fin n, (x p.1 - x p.2) ^ 2 =
      2 * ((n : ℚ) * (∑ i, x i ^ 2) - (∑ i, x i) ^ 2) := by
  simp only [sq]
  exact double_sum_mul n x x

lemma corrFactor_nonneg (n : ℕ) (x : Fin n → ℚ) :
    0 ≤ (n : ℚ) * (∑ i, x i ^ 2) - (∑ i, x i) ^ 2 := by
  have h := double_sum_sq n x
  have h2 : 0 ≤ ∑ p : Fin n × Fin n, (x p.1 - x p.2) ^ 2 :=
    Finset.sum_nonneg (fun p _ => sq_nonneg _)
  rw [h] at h2
  linarith

lemma pearson_cs (n : ℕ) (x y : Fin n → ℚ) :
    ((n : ℚ) * (∑ i, x i * y i) - (∑ i, x i) * (∑ i, y i)) ^ 2 ≤
      ((n : ℚ) * (∑ i, x i ^ 2) - (∑ i, x i) ^ 2) *
        ((n : ℚ) * (∑ i, y i ^ 2) - (∑ i, y i) ^ 2) := by
  have cs := Finset.sum_mul_sq_le_sq_mul_sq Finset.univ
    (fun p : Fin n × Fin n => x p.1 - x p.2) (fun p => y p.1 - y p.2)
  rw [double_sum_mul n x y, double_sum_sq n x, double_sum_sq n y] at cs
  nlinarith [cs]

lemma corrNum_sq_le_corrDenSq (pairs : List (ℚ × ℚ)) :
    corrNum pairs ^ 2 ≤ corrDenSq pairs := by
  unfold corrNum corrDenSq
  rw [list_map_sum_eq_fin pairs (fun p => p.1 * p.2),
    list_map_sum_eq_fin pairs (fun p => p.1),
    list_map_sum_eq_fin pairs (fun p => p.2),
    list_map_sum_eq_fin pairs (fun p => p.1 ^ 2),
    list_map_sum_eq_fin pairs (fun p => p.2 ^ 2)]
  exact pearson_cs pairs.length (fun i => (pairs.get i).1) (fun i => (pairs.get i).2)

lemma corrDenSq_nonneg (pairs : List (ℚ × ℚ)) : 0 ≤ corrDenSq pairs := by
  unfold corrDenSq
  rw [list_map_sum_eq_fin pairs (fun p => p.1),
    list_map_sum_eq_fin pairs (fun p => p.2),
    list_map_sum_eq_fin pairs (fun p => p.1 ^ 2),
    list_map_sum_eq_fin pairs (fun p => p.2 ^ 2)]
  exact mul_nonneg
    (corrFactor_nonneg pairs.length (fun i => (pairs.get i).1))
    (corrFactor_nonneg pairs.length (fun i => (pairs.get i).2))

/-- C6: the correlation is always within the closed interval `[-1, 1]`;
with fewer than two valid numeric pairs it is `0`, and when the
square-root denominator of the Pearson formula is zero it is `0`. -/
theorem calculateCorrelation_bounds (data : List Row) (col1 col2 : String) :
    (-1 ≤ calculateCorrelation data col1 col2 ∧ calculateCorrelation data col1 col2 ≤ 1) ∧
    ((corrPairs data col1 col2).length < 2 → calculateCorrelation data col1 col2 = 0) ∧
    (Real.sqrt (corrDenSq (corrPairs data col1 col2)) = 0 →
      calculateCorrelation data col1 col2 = 0) := by
  unfold calculateCorrelation
  dsimp only
  by_cases hlen : (corrPairs data col1 col2).length < 2
  · simp [hlen]
  · rw [if_neg hlen]
    by_cases hden : Real.sqrt (corrDenSq (corrPairs data col1 col2)) = 0
    · simp [hden]
    · rw [if_neg hden]
      refine ⟨?_, fun h => absurd h hlen, fun h => absurd h hden⟩
      have hD0 : (0 : ℚ) ≤ corrDenSq (corrPairs data col1 col2) :=
        corrDenSq_nonneg _
      have hpos : 0 < Real.sqrt (corrDenSq (corrPairs data col1 col2)) :=
        lt_of_le_of_ne (Real.sqrt_nonneg _) (Ne.symm hden)
      have habs : |(corrNum (corrPairs data col1 col2) : ℝ)| ≤
          Real.sqrt (corrDenSq (corrPairs data col1 col2)) := by
        apply Real.abs_le_sqrt
        have hq := corrNum_sq_le_corrDenSq (corrPairs data col1 col2)
        calc (corrNum (corrPairs data col1 col2) : ℝ) ^ 2
            = ((corrNum (corrPairs data col1 col2) ^ 2 : ℚ) : ℝ) := by push_cast; ring
          _ ≤ ((corrDenSq (corrPairs data col1 col2) : ℚ) : ℝ) := by exact_mod_cast hq
      have h1 : |(corrNum (corrPairs data col1 col2) : ℝ) /
          Real.sqrt (corrDenSq (corrPairs data col1 col2))| ≤ 1 := by
        rw [abs_div, abs_of_pos hpos]
        exact (div_le_one hpos).2 habs
      exact abs_le.1 h1

/-- C6 witness: with no rows there are no valid pairs, so the correlation
is the defined fallback `0`, which lies in the claimed interval. -/
theorem calculateCorrelation_bounds_witness :
    calculateCorrelation [] "a" "b" = 0 ∧ -1 ≤ calculateCorrelation [] "a" "b" := by
  have h := calculateCorrelation_bounds [] "a" "b"
  exact ⟨h.2.1 (by decide), h.1.1⟩

lemma insertGroup_keys (cols : List String) (groups : List (String × List Row))
    (row : Row) :
    (insertGroup cols groups row).map Prod.fst =
      if groupKey cols row ∈ groups.map Prod.fst then groups.map Prod.fst
      else groups.map Prod.fst ++ [groupKey cols row] := by
  unfold insertGroup
  dsimp only
  have hmem : (groups.any (fun e => e.1 = groupKey cols row) = true) ↔
      groupKey cols row ∈ groups.map Prod.fst := by
    rw [List.any_eq_true, List.mem_map]
    constructor
    · intro hany
      obtain ⟨e, he, heq⟩ := hany
      exact ⟨e, he, of_decide_eq_true heq⟩
    · intro hm
      obtain ⟨e, he, heq⟩ := hm
      exact ⟨e, he, decide_eq_true heq⟩
  by_cases h : groups.any (fun e => e.1 = groupKey cols row)
  · rw [if_pos h, if_pos (hmem.1 h), List.map_map]
    apply List.map_congr_left
    intro e _
    by_cases he : e.1 = groupKey cols row
    · simp [he]
    · simp [he]
  · rw [if_neg h, if_neg (fun hc => h (hmem.2 hc))]
    simp

lemma foldl_insertGroup_keys (cols : List String) (data : List Row) :
    ∀ acc : List (String × List Row), (acc.map Prod.fst).Nodup →
    ((data.foldl (insertGroup cols) acc).map Prod.fst).Nodup ∧
    ((data.foldl (insertGroup cols) acc).map Prod.fst).toFinset =
      (acc.map Prod.fst).toFinset ∪ (data.map (groupKey cols)).toFinset := by
  induction data with
  | nil =>
    intro acc h
    exact ⟨h, by simp⟩
  | cons row rest ih =>
    intro acc h
    rw [List.foldl_cons]
    have hkeys := insertGroup_keys cols acc row
    by_cases hmem : groupKey cols row ∈ acc.map Prod.fst
    · have hnodup : ((insertGroup cols acc row).map Prod.fst).Nodup := by
        rw [hkeys, if_pos hmem]
        exact h
      obtain ⟨h1, h2⟩ := ih (insertGroup cols acc row) hnodup
      refine ⟨h1, ?_⟩
      rw [h2, hkeys, if_pos hmem]
      have hfin : groupKey cols row ∈ (acc.map Prod.fst).toFinset := by
        simpa using hmem
      ext a
      simp only [List.map_cons, List.toFinset_cons, Finset.mem_union,
        Finset.mem_insert]
      constructor
      · intro hc
        rcases hc with hc | hc
        · exact Or.inl hc
        · exact Or.inr (Or.inr hc)
      · intro hc
        rcases hc with hc | hc | hc
        · exact Or.inl hc
        · exact Or.inl (hc ▸ hfin)
        · exact Or.inr hc
    · have hnodup : ((insertGroup cols acc row).map Prod.fst).Nodup := by
        rw [hkeys, if_neg hmem]
        simp only [List.nodup_append, List.nodup_cons, List.not_mem_nil,
          not_false_iff, List.nodup_nil, and_true, true_and]
        refine ⟨h, ?_⟩
        intro a ha hb
        simp only [List.mem_singleton] at hb
        exact hmem (hb ▸ ha)
      obtain ⟨h1, h2⟩ := ih (insertGroup cols acc row) hnodup
      refine ⟨h1, ?_⟩
      rw [h2, hkeys, if_neg hmem]
      ext a
      simp only [List.toFinset_append, List.map_cons, List.toFinset_cons,
        Finset.mem_union, Finset.mem_insert, List.toFinset_cons,
        List.toFinset_nil, insert_emptyc_eq, Finset.mem_singleton]
      constructor
      · intro hc
        rcases hc with (hc | hc) | hc
        · exact Or.inl hc
        · exact Or.inr (Or.inl hc)
        · exact Or.inr (Or.inr hc)
      · intro hc
        rcases hc with hc | hc | hc
        · exact Or.inl (Or.inl hc)
        · exact Or.inl (Or.inr hc)
        · exact Or.inr hc

lemma buildGroups_length (data : List Row) (cols : List String) :
    (buildGroups data cols).length = ((data.map (groupKey cols)).toFinset).card := by
  obtain ⟨h1, h2⟩ := foldl_insertGroup_keys cols data [] (by simp)
  unfold buildGroups
  calc (data.foldl (insertGroup cols) []).length
      = ((data.foldl (insertGroup cols) []).map Prod.fst).length := by simp
    _ = ((data.foldl (insertGroup cols) []).map Prod.fst).toFinset.card :=
        (List.toFinset_card_of_nodup h1).symm
    _ = ((data.map (groupKey cols)).toFinset).card := by rw [h2]; simp

/-- C4 counterexample: two rows whose group values differ but whose
pipe-joined keys collide (`"a|b"`,`"c"` versus `"a"`,`"b|c"` both join to
`"a|b|c"`) produce one output row, not two — the output row count does
not equal the number of distinct group-column value combinations. -/
theorem groupAndAggregate_combination_count_counterexample :
    ¬ ((groupAndAggregate
        [[("g1", Value.str "a|b"), ("g2", Value.str "c")],
         [("g1", Value.str "a"), ("g2", Value.str "b|c")]] ["g1", "g2"] []).length =
      (([[("g1", Value.str "a|b"), ("g2", Value.str "c")],
         [("g1", Value.str "a"), ("g2", Value.str "b|c")]].map
          (fun r => [lookupRow r "g1", lookupRow r "g2"])).toFinset).card) := by
  decide

/-- C4 amended: for every dataset, group-column list and aggregation
list, the number of output rows equals the number of distinct pipe-joined
group keys of the input rows (which matches the number of distinct value
combinations only when no stringified group value contains the pipe
separator). -/
theorem groupAndAggregate_row_count (data : List Row) (cols : List String)
    (aggs : List Aggregation) :
    (groupAndAggregate data cols aggs).length =
      ((data.map (groupKey cols)).toFinset).card := by
  unfold groupAndAggregate
  rw [List.length_map]
  exact buildGroups_length data cols

lemma lookupRow_mapSet_self (k : String) (v : Value) :
    ∀ r : Row, r.any (fun p => p.1 = k) →
      lookupRow (r.map (fun p => if p.1 = k then (k, v) else p)) k = some v := by
  intro r
  induction r with
  | nil =>
    intro h
    simp at h
  | cons p rest ih =>
    intro h
    rw [List.map_cons]
    by_cases hp : p.1 = k
    · rw [if_pos hp, lookupRow, if_pos rfl]
    · have hrest : rest.any (fun p => p.1 = k) := by
        rcases List.any_eq_true.1 h with ⟨e, he, heq⟩
        rcases List.mem_cons.1 he with rfl | he2
        · exact absurd (of_decide_eq_true heq) hp
        · exact List.any_eq_true.2 ⟨e, he2, heq⟩
      rw [if_neg hp, lookupRow, if_neg hp]
      exact ih hrest

lemma lookupRow_append_single (k : String) (v : Value) :
    ∀ r : Row, ¬r.any (fun p => p.1 = k) →
      lookupRow (r ++ [(k, v)]) k = some v := by
  intro r
  induction r with
  | nil =>
    intro _
    simp [lookupRow]
  | cons p rest ih =>
    intro h
    have hp : ¬(p.1 = k) := by
      intro hc
      exact h (List.any_eq_true.2 ⟨p, List.mem_cons_self p rest, decide_eq_true hc⟩)
    have hrest : ¬rest.any (fun p => p.1 = k) := by
      intro hc
      rcases List.any_eq_true.1 hc with ⟨e, he, heq⟩
      exact h (List.any_eq_true.2 ⟨e, List.mem_cons_of_mem p he, heq⟩)
    rw [List.cons_append, lookupRow, if_neg hp]
    exact ih hrest

lemma lookupRow_setKey_self (r : Row) (k : String) (v : Value) :
    lookupRow (setKey r k v) k = some v := by
  unfold setKey
  by_cases h : r.any (fun p => p.1 = k)
  · rw [if_pos h]
    exact lookupRow_mapSet_self k v r h
  · rw [if_neg h]
    exact lookupRow_append_single k v r h

lemma lookupRow_mapSet_ne (k : String) (v : Value) (c : String) (h : c ≠ k) :
    ∀ r : Row,
      lookupRow (r.map (fun p => if p.1 = k then (k, v) else p)) c = lookupRow r c := by
  intro r
  induction r with
  | nil => rfl
  | cons p rest ih =>
    rw [List.map_cons]
    by_cases hp : p.1 = k
    · have hpc : ¬(p.1 = c) := fun hc => h (hc ▸ hp)
      have hkc : ¬(k = c) := fun hc => h hc.symm
      rw [if_pos hp, lookupRow, if_neg hkc, ih, lookupRow, if_neg hpc]
    · rw [if_neg hp, lookupRow, lookupRow]
      by_cases hpc : p.1 = c
      · rw [if_pos hpc, if_pos hpc]
      · rw [if_neg hpc, if_neg hpc, ih]

lemma lookupRow_append_ne (k : String) (v : Value) (c : String) (h : c ≠ k) :
    ∀ r : Row, lookupRow (r ++ [(k, v)]) c = lookupRow r c := by
  intro r
  induction r with
  | nil =>
    have hkc : ¬(k = c) := fun hc => h hc.symm
    simp [lookupRow, hkc]
  | cons p rest ih =>
    rw [List.cons_append, lookupRow, lookupRow]
    by_cases hpc : p.1 = c
    · rw [if_pos hpc, if_pos hpc]
    · rw [if_neg hpc, if_neg hpc, ih]

lemma lookupRow_setKey_ne (r : Row) (k : String) (v : Value) (c : String)
    (h : c ≠ k) : lookupRow (setKey r k v) c = lookupRow r c := by
  unfold setKey
  split
  · exact lookupRow_mapSet_ne k v c h r
  · exact lookupRow_append_ne k v c h r

lemma lookupRow_foldl_setKey_notin {α : Type} (keyf : α → String) (valf : α → Value)
    (l : List α) (c : String) :
    ∀ r : Row, (∀ a ∈ l, keyf a ≠ c) →
      lookupRow (l.foldl (fun acc a => setKey acc (keyf a) (valf a)) r) c =
        lookupRow r c := by
  induction l with
  | nil =>
    intro r _
    rfl
  | cons a rest ih =>
    intro r h
    rw [List.foldl_cons, ih _ (fun b hb => h b (List.mem_cons_of_mem a hb))]
    exact lookupRow_setKey_ne r (keyf a) (valf a) c
      (fun hc => h a (List.mem_cons_self a rest) hc.symm)

lemma setGroupCols_lookup_str (cols : List String) :
    ∀ (pieces : List String) (r : Row) (c : String),
      ((∃ s, lookupRow r c = some (Value.str s)) ∨ c ∈ cols) →
      ∃ s, lookupRow (setGroupCols r cols pieces) c = some (Value.str s) := by
  induction cols with
  | nil =>
    intro pieces r c h
    rcases h with h | h
    · exact h
    · exact absurd h (List.not_mem_nil c)
  | cons c0 cs ih =>
    intro pieces r c h
    have step : ∀ (piece : String) (rest : List String),
        ((∃ s, lookupRow (setKey r c0 (Value.str piece)) c = some (Value.str s)) ∨
          c ∈ cs) := by
      intro piece rest
      rcases h with h | h
      · obtain ⟨s, hs⟩ := h
        by_cases hc : c = c0
        · exact Or.inl ⟨piece, by rw [hc]; exact lookupRow_setKey_self r c0 _⟩
        · exact Or.inl ⟨s, by rw [lookupRow_setKey_ne r c0 _ c hc]; exact hs⟩
      · rcases List.mem_cons.1 h with hc | hc
        · exact Or.inl ⟨piece, by rw [hc]; exact lookupRow_setKey_self r c0 _⟩
        · exact Or.inr hc
    cases pieces with
    | nil => exact ih [] (setKey r c0 (Value.str "")) c (step "" [])
    | cons p ps => exact ih ps (setKey r c0 (Value.str p)) c (step p ps)

/-- C10 counterexample: when an aggregation output name collides with a
group column (group column `v_count` and aggregation `count` of column
`v`), the aggregation overwrites the group column, which then holds the
numeric count `1` instead of the string piece `"a"` of the joined key. -/
theorem groupAndAggregate_group_col_overwritten_counterexample :
    groupAndAggregate [[("v_count", Value.str "a"), ("v", Value.num 2)]]
        ["v_count"] [⟨"v", AggFun.count⟩] = [[("v_count", Value.num 1)]] ∧
      Value.num 1 ≠ Value.str "a" := by
  constructor
  · decide
  · decide

/-- C10 amended: provided no aggregation output name equals a group
column, every group column of every output row holds a string value (the
piece of the joined key), so non-string group values come back as
strings. -/
theorem groupAndAggregate_group_cols_are_strings
    (data : List Row) (cols : List String) (aggs : List Aggregation)
    (h : ∀ agg ∈ aggs, ∀ c ∈ cols, aggName agg ≠ c) :
    ∀ row ∈ groupAndAggregate data cols aggs, ∀ c ∈ cols,
      ∃ s, lookupRow row c = some (Value.str s) := by
  intro row hrow c hc
  unfold groupAndAggregate at hrow
  rw [List.mem_map] at hrow
  obtain ⟨entry, _, rfl⟩ := hrow
  dsimp only
  rw [lookupRow_foldl_setKey_notin aggName (fun agg => aggValue agg entry.2) aggs c _
    (fun a ha => h a ha c hc)]
  exact setGroupCols_lookup_str cols (splitOnPipe entry.1) [] c (Or.inr hc)

/-- C10 witness: on a concrete dataset whose group value is the number 1,
the group column of the output is a string, and full evaluation shows the
value is the string `"1"`. -/
theorem groupAndAggregate_group_cols_are_strings_witness :
    (∀ row ∈ groupAndAggregate [[("g", Value.num 1), ("v", Value.num 2)]]
        ["g"] [⟨"v", AggFun.count⟩], ∀ c ∈ ["g"],
      ∃ s, lookupRow row c = some (Value.str s)) ∧
    groupAndAggregate [[("g", Value.num 1), ("v", Value.num 2)]]
        ["g"] [⟨"v", AggFun.count⟩] =
      [[("g", Value.str "1"), ("v_count", Value.num 1)]] :=
  ⟨groupAndAggregate_group_cols_are_strings _ _ _ (by decide), by decide⟩

lemma foldl_setFields_lookup (ev : String → Option Value) (row : Row) :
    ∀ (fields : List ComputedField) (init : Row),
      (fields.map ComputedField.name).Nodup →
      ∀ f ∈ fields,
        lookupRow
          (fields.foldl
            (fun acc field => setKey acc field.name (computedValue ev field row)) init)
          f.name = some (computedValue ev f row) := by
  intro fields
  induction fields with
  | nil =>
    intro init _ f hf
    exact absurd hf (List.not_mem_nil f)
  | cons g rest ih =>
    intro init hnodup f hf
    rw [List.map_cons, List.nodup_cons] at hnodup
    rw [List.foldl_cons]
    rcases List.mem_cons.1 hf with rfl | hf2
    · rw [lookupRow_foldl_setKey_notin ComputedField.name
        (fun field => computedValue ev field row) rest f.name _
        (fun a ha hc => hnodup.1 (hc ▸ List.mem_map_of_mem ComputedField.name ha))]
      exact lookupRow_setKey_self init f.name _
    · exact ih (setKey init g.name (computedValue ev g row)) hnodup.2 f hf2

/-- C9: with distinct computed-field names, the batch never aborts (the
output has one row per input row), each computed field of each row holds
exactly the value of the evaluation oracle on its own substituted
expression — `null` precisely when that one evaluation fails — and every
column outside the computed-field names is left untouched, so one
failure affects exactly one field of one row. -/
theorem addComputedFields_isolation (ev : String → Option Value)
    (fields : List ComputedField)
    (hnodup : (fields.map ComputedField.name).Nodup) :
    (∀ data : List Row, (addComputedFields ev data fields).length = data.length) ∧
    (∀ (row : Row), ∀ f ∈ fields,
      lookupRow (applyFieldsRow ev fields row) f.name =
        some (computedValue ev f row)) ∧
    (∀ (row : Row) (c : String), c ∉ fields.map ComputedField.name →
      lookupRow (applyFieldsRow ev fields row) c = lookupRow row c) := by
  refine ⟨?_, ?_, ?_⟩
  · intro data
    unfold addComputedFields
    exact List.length_map data _
  · intro row f hf
    unfold applyFieldsRow
    exact foldl_setFields_lookup ev row fields row hnodup f hf
  · intro row c hc
    unfold applyFieldsRow
    exact lookupRow_foldl_setKey_notin ComputedField.name
      (fun field => computedValue ev field row) fields c row
      (fun a ha heq => hc (heq ▸ List.mem_map_of_mem ComputedField.name ha))

/-- Concrete evaluation oracle for the computed-field witness: it only
knows how to evaluate the substituted string `1+1`; everything else
throws. -/
def computedEvalOracle : String → Option Value :=
  fun s => if s = "1+1" then some (Value.num 2) else none

/-- C9 witness: on row `{x: 1}` with fields `ok = x+1` (which substitutes
to `1+1` and evaluates) and `bad = y+1` (whose evaluation fails), the
failing field alone becomes `null`, the sibling field gets its value, the
original column survives, and the batch length is preserved. -/
theorem addComputedFields_isolation_witness :
    lookupRow (applyFieldsRow computedEvalOracle
        [⟨"ok", "x+1", ColType.numeric⟩, ⟨"bad", "y+1", ColType.numeric⟩]
        [("x", Value.num 1)]) "ok" = some (Value.num 2) ∧
    lookupRow (applyFieldsRow computedEvalOracle
        [⟨"ok", "x+1", ColType.numeric⟩, ⟨"bad", "y+1", ColType.numeric⟩]
        [("x", Value.num 1)]) "bad" = some Value.null ∧
    lookupRow (applyFieldsRow computedEvalOracle
        [⟨"ok", "x+1", ColType.numeric⟩, ⟨"bad", "y+1", ColType.numeric⟩]
        [("x", Value.num 1)]) "x" = some (Value.num 1) ∧
    (addComputedFields computedEvalOracle [[("x", Value.num 1)]]
        [⟨"ok", "x+1", ColType.numeric⟩, ⟨"bad", "y+1", ColType.numeric⟩]).length = 1 := by
  obtain ⟨hlen, hfields, horig⟩ := addComputedFields_isolation computedEvalOracle
    [⟨"ok", "x+1", ColType.numeric⟩, ⟨"bad", "y+1", ColType.numeric⟩] (by decide)
  refine ⟨?_, ?_, ?_, hlen [[("x", Value.num 1)]]⟩
  · rw [hfields [("x", Value.num 1)] ⟨"ok", "x+1", ColType.numeric⟩
      (List.mem_cons_self _ _)]
    decide
  · rw [hfields [("x", Value.num 1)] ⟨"bad", "y+1", ColType.numeric⟩
      (List.mem_cons_of_mem _ (List.mem_cons_self _ _))]
    decide
  · rw [horig [("x", Value.num 1)] "x" (by decide)]
    decide

end VizPlay
